import Mathlib

/-!
Verification of `src/function_app.py` (appsvc-console-to-blob): an Azure
Function that normalizes Event Hub diagnostic-log batches, routes records by
(tenant FQDN, event hour) and writes gzip-compressed NDJSON blobs.

Shallow embedding conventions:
* Python JSON values are the inductive `JVal`; a Python dict used as a record
  is an association list `Record` (keys unique in practice; lookup takes the
  first match, as a dict has a single binding per key).
* The standard-library collaborators `json.loads` and
  `datetime.fromisoformat` are parameters (`jparse`, `fromiso`) of the
  functions that call them: a `none` result stands for the exception path.
  Concrete instantiations used in closed theorems state the documented
  behaviour of those functions on the exact literals involved.
* `datetime` values are `PyDateTime` (naive fields plus optional UTC-offset
  minutes); machine integers do not occur (Python ints are unbounded).
* Decimal rendering of numbers (Python `str`, zero-padded `strftime` fields)
  is modelled by `toDigits`/`padNat`.
-/

/-- JSON values as produced by `json.loads` (numbers modelled as integers,
which covers every literal occurring in the claims). -/
inductive JVal where
  | jnull
  | jbool (b : Bool)
  | jnum (n : Int)
  | jstr (s : String)
  | jarr (xs : List JVal)
  | jobj (fields : List (String × JVal))

/-- A normalized log record: a Python dict from string keys to JSON values. -/
abbrev Record := List (String × JVal)

/-- `record.get(k)`: first binding for `k`, `none` when the key is absent. -/
def rget (r : Record) (k : String) : Option JVal :=
  match r with
  | [] => none
  | (k2, v) :: rest => if k2 = k then some v else rget rest k

/-- Truthiness of `v.strip()` for a Python string `v`: true iff `v` contains a
non-whitespace character. -/
def strTruthy (s : String) : Bool :=
  s.data.any (fun c => !c.isWhitespace)

/-- Python `v.strip()`: remove leading and trailing whitespace. -/
def pyStrip (s : String) : String :=
  String.mk (((s.data.dropWhile Char.isWhitespace).reverse.dropWhile
    Char.isWhitespace).reverse)

/-- Decimal digit character for `n % 10`. -/
def digitChar (n : Nat) : Char := Char.ofNat (48 + n % 10)

/-- Fuel-indexed digit rendering (structural recursion so that the kernel
can evaluate it; the fuel is always at least the digit count). -/
def toDigitsAux : Nat → Nat → List Char
  | 0, n => [digitChar n]
  | fuel + 1, n =>
      if n < 10 then [digitChar n]
      else toDigitsAux fuel (n / 10) ++ [digitChar (n % 10)]

/-- Decimal digits of a natural number (no leading zeros; `0 ↦ "0"`),
modelling Python `str(n)` for `n ≥ 0`: `n` itself is enough fuel. -/
def toDigits (n : Nat) : List Char := toDigitsAux n n

/-- Left-pad a digit string with zeros to width `w`, modelling the zero-padded
`strftime` fields and `str.zfill`. -/
def padNat (w : Nat) (n : Nat) : String :=
  String.mk (List.replicate (w - (toDigits n).length) '0' ++ toDigits n)

/-- Python `str(i)` for an int. -/
def intToStr (i : Int) : String :=
  if i < 0 then "-" ++ String.mk (toDigits i.natAbs) else String.mk (toDigits i.toNat)

/-- JSON string escaping as performed by `json.dumps(..., ensure_ascii=False)`:
quote, backslash and control characters are escaped, everything else kept. -/
def escapeChar (c : Char) : List Char :=
  if c = '"' then ['\\', '"']
  else if c = '\\' then ['\\', '\\']
  else if c = Char.ofNat 8 then ['\\', 'b']
  else if c = Char.ofNat 9 then ['\\', 't']
  else if c = Char.ofNat 10 then ['\\', 'n']
  else if c = Char.ofNat 12 then ['\\', 'f']
  else if c = Char.ofNat 13 then ['\\', 'r']
  else if c.toNat < 32 then
    ['\\', 'u', '0', '0', digitChar2 (c.toNat / 16), digitChar2 (c.toNat % 16)]
  else [c]
where
  /-- lowercase hex digit -/
  digitChar2 (n : Nat) : Char :=
    if n < 10 then Char.ofNat (48 + n) else Char.ofNat (87 + n)

/-- A JSON string literal with escaping. -/
def escString (s : String) : String :=
  "\"" ++ String.mk (s.data.flatMap escapeChar) ++ "\""

mutual
/-- `json.dumps(v, ensure_ascii=False, separators=(",", ":"))`. -/
def dumpsJ : JVal → String
  | .jnull => "null"
  | .jbool true => "true"
  | .jbool false => "false"
  | .jnum n => intToStr n
  | .jstr s => escString s
  | .jarr xs => "[" ++ dumpsArr xs ++ "]"
  | .jobj fs => "\x7b" ++ dumpsObj fs ++ "\x7d"

/-- Comma-joined serialization of array elements. -/
def dumpsArr : List JVal → String
  | [] => ""
  | [x] => dumpsJ x
  | x :: y :: xs => dumpsJ x ++ "," ++ dumpsArr (y :: xs)

/-- Comma-joined serialization of object members with `":"` separators. -/
def dumpsObj : List (String × JVal) → String
  | [] => ""
  | [(k, v)] => escString k ++ ":" ++ dumpsJ v
  | (k, v) :: m :: fs => escString k ++ ":" ++ dumpsJ v ++ "," ++ dumpsObj (m :: fs)
end

/-- The mapping elements of a JSON list (`[r for r in xs if isinstance(r, dict)]`). -/
def recordsOfList (xs : List JVal) : List Record :=
  xs.filterMap fun r =>
    match r with
    | .jobj fields => some fields
    | _ => none

/-- The list case of `extract_records`: dicts with a `records` list contribute
their mapping elements, other dicts are kept whole, non-dicts are dropped. -/
def extractFromList : List JVal → List Record
  | [] => []
  | .jobj fields :: rest =>
      (match rget fields "records" with
       | some (.jarr rs) => recordsOfList rs
       | _ => [fields]) ++ extractFromList rest
  | _ :: rest => extractFromList rest

/-- `extract_records(payload_text)`: normalize a raw payload into records.
`parsed` is the outcome of `json.loads(payload_text)` (`none` =
`JSONDecodeError`). Never raises: every case returns a list. -/
def extract_records (parsed : Option JVal) (payloadText : String) : List Record :=
  match parsed with
  | none => [[("_raw", JVal.jstr payloadText)]]
  | some (.jarr items) => extractFromList items
  | some (.jobj fields) =>
      match rget fields "records" with
      | some (.jarr rs) => recordsOfList rs
      | _ => [fields]
  | some _ => [[("_raw", JVal.jstr payloadText)]]

/-- `pick_message(record)`: first non-blank string among the candidate keys,
else the compact JSON serialization of the whole record. -/
def pick_message (r : Record) : String :=
  match ["resultDescription", "ResultDescription", "message", "Message",
      "_raw"].findSome? (fun k =>
        match rget r k with
        | some (.jstr v) => if strTruthy v then some v else none
        | _ => none) with
  | some v => v
  | none => dumpsJ (.jobj r)

/-- A Python `datetime`: naive calendar fields plus an optional fixed UTC
offset in minutes (`none` = naive, no `tzinfo`). -/
structure PyDateTime where
  year : Nat
  month : Nat
  day : Nat
  hour : Nat
  minute : Nat
  second : Nat
  microsecond : Nat
  tzOffsetMin : Option Int
deriving DecidableEq, Repr

/-- `dt.replace(tzinfo=timezone.utc)`. -/
def withUTC (t : PyDateTime) : PyDateTime :=
  { t with tzOffsetMin := some 0 }

/-- `record_time.strftime("%Y-%m-%d-%H")`, the grouping hour key. -/
def hourKey (t : PyDateTime) : String :=
  padNat 4 t.year ++ "-" ++ padNat 2 t.month ++ "-" ++ padNat 2 t.day
    ++ "-" ++ padNat 2 t.hour

/-- The `±HH:MM` suffix of `datetime.isoformat` for an aware value. -/
def offsetSuffix (off : Int) : String :=
  (if off < 0 then "-" else "+") ++ padNat 2 (off.natAbs / 60)
    ++ ":" ++ padNat 2 (off.natAbs % 60)

/-- `dt.isoformat()`: microseconds printed only when nonzero, offset suffix
only when the value is aware. -/
def isoformat (t : PyDateTime) : String :=
  padNat 4 t.year ++ "-" ++ padNat 2 t.month ++ "-" ++ padNat 2 t.day
    ++ "T" ++ padNat 2 t.hour ++ ":" ++ padNat 2 t.minute
    ++ ":" ++ padNat 2 t.second
    ++ (if t.microsecond = 0 then "" else "." ++ padNat 6 t.microsecond)
    ++ (match t.tzOffsetMin with
        | none => ""
        | some off => offsetSuffix off)

/-- `v.replace('Z', '+00:00')`: every occurrence of `Z` replaced. -/
def replaceZ (s : String) : String :=
  String.mk (s.data.flatMap fun c =>
    if c = 'Z' then ['+', '0', '0', ':', '0', '0'] else [c])

/-- One parse attempt of `extract_record_time` on a candidate string `v`:
a trailing `Z` is rewritten to `+00:00` before parsing; a parsed value
without timezone information is assumed UTC.  `fromiso` models
`datetime.fromisoformat` (`none` = `ValueError`). -/
def parseRecordTimeValue (fromiso : String → Option PyDateTime)
    (v : String) : Option PyDateTime :=
  if v.data.getLast? = some 'Z' then fromiso (replaceZ v)
  else
    match fromiso v with
    | some dt => some (if dt.tzOffsetMin.isNone then withUTC dt else dt)
    | none => none

/-- The candidate result of `extract_record_time` for one key: present,
non-blank string values are parsed; everything else (absent key, non-string,
blank, parse failure) yields `none` and the scan moves to the next key. -/
def candidateTime (fromiso : String → Option PyDateTime)
    (r : Record) (k : String) : Option PyDateTime :=
  match rget r k with
  | some (.jstr v) => if strTruthy v then parseRecordTimeValue fromiso v else none
  | _ => none

/-- `extract_record_time(record)`: keys scanned in the fixed order
`time, Time, timestamp, Timestamp`; first successful parse wins; `None`
(not an exception) when every attempt fails. -/
def extract_record_time (fromiso : String → Option PyDateTime)
    (r : Record) : Option PyDateTime :=
  ["time", "Time", "timestamp", "Timestamp"].findSome? (candidateTime fromiso r)

/-- Lowercase a host candidate, strip a trailing `:port`, default to
`"unknown"` when empty — the shared tail of both branches of `extract_fqdn`
(`host = v.strip().lower(); split(":", 1)[0]; host or "unknown"`). -/
def normalizeHost (v : String) : String :=
  let host := (pyStrip v).data.map Char.toLower
  let host := host.takeWhile (fun c => c ≠ ':')
  if host.isEmpty then "unknown" else String.mk host

/-- `msg.find("{")` as a code-point index. -/
def findBrace (s : String) : Option Nat :=
  s.data.findIdx? (fun c => c = Char.ofNat 123)

/-- `msg[i:]` on code points. -/
def dropChars (s : String) (i : Nat) : String := String.mk (s.data.drop i)

/-- One `X-Forwarded-Host` key attempt inside the `headers` dict: a
non-blank string value is normalized and returned. -/
def xfhTry (hdrs : List (String × JVal)) (k : String) : Option String :=
  match rget hdrs k with
  | some (.jstr v) => if strTruthy v then some (normalizeHost v) else none
  | _ => none

/-- The three `X-Forwarded-Host` key variants, tried in order. -/
def xfhLookup (hdrs : List (String × JVal)) : Option String :=
  ["X-Forwarded-Host", "x-forwarded-host", "X-FORWARDED-HOST"].findSome?
    (xfhTry hdrs)

/-- The embedded-header lookup of `extract_fqdn`: when the parsed tail is a
dict whose `headers` member is a dict, the three `X-Forwarded-Host` key
variants are tried in order. -/
def headerHost (parsed : Option JVal) : Option String :=
  match parsed with
  | some (.jobj fields) =>
      match rget fields "headers" with
      | some (.jobj hdrs) => xfhLookup hdrs
      | _ => none
  | _ => none

/-- Word character for the regex `\b` boundary (ASCII model of `\w`). -/
def isWordChar (c : Char) : Bool := c.isAlphanum || c = '_'

/-- Characters admitted by the value group `[^\"\s,;]+` of `HOST_REGEX`. -/
def hostValueChar (c : Char) : Bool :=
  !(c = '"' || c.isWhitespace || c = ',' || c = ';')

/-- Attempt to match `HOST_REGEX` = `(?i)\bhost\b\s*[:=]\s*\"?([^\"\s,;]+)`
at the start of `l`, with `prev` the character before that position (for the
leading `\b`).  Returns the captured group. -/
def matchHostAt (prev : Option Char) (l : List Char) : Option String :=
  match l with
  | c1 :: c2 :: c3 :: c4 :: rest =>
      if (prev.all fun p => !isWordChar p)
          && c1.toLower = 'h' && c2.toLower = 'o'
          && c3.toLower = 's' && c4.toLower = 't'
          && (rest.head?.all fun n => !isWordChar n) then
        match rest.dropWhile Char.isWhitespace with
        | sep :: afterSep =>
            if sep = ':' || sep = '=' then
              let r := afterSep.dropWhile Char.isWhitespace
              let r := match r with
                       | q :: t => if q = '"' then t else q :: t
                       | [] => []
              let val := r.takeWhile hostValueChar
              if val.isEmpty then none else some (String.mk val)
            else none
        | [] => none
      else none
  | _ => none

/-- Leftmost-match search for `HOST_REGEX` over the tail positions of a
string: try a full match at each position from the left. -/
def hostSearchAux : Option Char → List Char → Option String
  | _, [] => none
  | prev, c :: rest =>
      match matchHostAt prev (c :: rest) with
      | some v => some v
      | none => hostSearchAux (some c) rest

/-- `HOST_REGEX.search(msg)`, returning `m.group(1)`. -/
def hostRegexSearch (s : String) : Option String := hostSearchAux none s.data

/-- `extract_fqdn(record, msg)`: prefer a non-blank `X-Forwarded-Host` in a
JSON object embedded in the message (from the first `{` on); otherwise fall
back to the `HOST_REGEX` text search; otherwise `"unknown"`.  `jparse`
models `json.loads` on the message tail (`none` = any exception, which the
code swallows). -/
def extract_fqdn (jparse : String → Option JVal) (msg : String) : String :=
  let viaHeader :=
    match findBrace msg with
    | none => none
    | some i => headerHost (jparse (dropChars msg i))
  match viaHeader with
  | some h => h
  | none =>
      match hostRegexSearch msg with
      | none => "unknown"
      | some g => normalizeHost g

/-- `LOG_CONTAINER_PREFIX` at its default value `"logs-"`. -/
def containerNamePref : String := "logs-"

/-- Membership in the container-name alphabet `[a-z0-9-]`. -/
def allowedChar (c : Char) : Bool :=
  ('a' ≤ c && c ≤ 'z') || ('0' ≤ c && c ≤ '9') || c = '-'

/-- `NON_ALLOWED.sub("-", s)`: each maximal run of characters outside
`[a-z0-9-]` is replaced by a single hyphen.  The flag records whether the
previous character belonged to such a run. -/
def subNonAllowedAux : Bool → List Char → List Char
  | _, [] => []
  | inRun, c :: cs =>
      if allowedChar c then c :: subNonAllowedAux false cs
      else if inRun then subNonAllowedAux true cs
      else '-' :: subNonAllowedAux true cs

/-- `NON_ALLOWED.sub("-", s)` on a character list. -/
def subNonAllowed (l : List Char) : List Char := subNonAllowedAux false l

/-- `MULTI_HYPHEN.sub("-", s)`: each run of two or more hyphens collapses to
one (equivalently, hyphen runs collapse to a single hyphen). -/
def collapseHyphAux : Bool → List Char → List Char
  | _, [] => []
  | prevHyph, c :: cs =>
      if c = '-' then
        if prevHyph then collapseHyphAux true cs
        else '-' :: collapseHyphAux true cs
      else c :: collapseHyphAux false cs

/-- `MULTI_HYPHEN.sub("-", s)` on a character list. -/
def collapseHyph (l : List Char) : List Char := collapseHyphAux false l

/-- `s.rstrip("-")`. -/
def rstripHyph (l : List Char) : List Char :=
  (l.reverse.dropWhile (fun c => c = '-')).reverse

/-- `s.strip("-")`. -/
def stripHyph (l : List Char) : List Char :=
  rstripHyph (l.dropWhile (fun c => c = '-'))

/-- The second half of `to_container_name`, applied to the characters of
`CONTAINER_PREFIX + base` after lowercasing: re-normalize the alphabet and
hyphens, then enforce the 3–63 length window with the fixed fallback. -/
def containerNameCore (l : List Char) : String :=
  let name := collapseHyph (stripHyph (subNonAllowed l))
  let name := if name.length > 63 then rstripHyph (name.take 63) else name
  let name := stripHyph name
  if name.length < 3 then "logs-unknown" else String.mk name

/-- `to_container_name(fqdn)` with the default container prefix: lowercase,
dots to hyphens, strip the disallowed alphabet, pad short bases with `unk-`,
prepend the prefix, re-normalize, and enforce the 3–63 length window. -/
def to_container_name (fqdn : String) : String :=
  let base := (fqdn.data.map Char.toLower).map (fun c => if c = '.' then '-' else c)
  let base := collapseHyph (stripHyph (subNonAllowed base))
  let base :=
    if base.length < 3 then
      (if base.isEmpty then "unknown".data else "unk-".data ++ base)
    else base
  containerNameCore ((containerNamePref.data ++ base).map Char.toLower)

/-- Python truthiness of an optional string (`None` and `""` are falsy). -/
def optTruthy : Option String → Bool
  | some s => s ≠ ""
  | none => false

/-- `str(now_utc.microsecond // 1000).zfill(3)` appended to
`now_utc.strftime("%Y%m%d%H%M%S")`: the timestamp fallback filename stem. -/
def timestampMs (t : PyDateTime) : String :=
  padNat 4 t.year ++ padNat 2 t.month ++ padNat 2 t.day ++ padNat 2 t.hour
    ++ padNat 2 t.minute ++ padNat 2 t.second ++ padNat 3 (t.microsecond / 1000)

/-- `blob_name_with_offsets(now_utc, partition_id, start_offset, end_offset)`:
Hive-style path with a fixed minute directory and offset-based filename,
falling back to a millisecond timestamp when either offset is falsy. -/
def blob_name_with_offsets (nowUtc : PyDateTime) (partitionId : Option String)
    (startOffset endOffset : Option String) : String :=
  let p := match partitionId with
           | some s => if s = "" then "unknown" else s
           | none => "unknown"
  let se :=
    if optTruthy startOffset && optTruthy endOffset then
      (startOffset.getD "", endOffset.getD "")
    else
      let ts := timestampMs nowUtc
      (ts, ts)
  let filename := "part-o" ++ se.1 ++ "-o" ++ se.2 ++ ".ndjson.gz"
  "y=" ++ padNat 4 nowUtc.year ++ "/m=" ++ padNat 2 nowUtc.month
    ++ "/d=" ++ padNat 2 nowUtc.day ++ "/h=" ++ padNat 2 nowUtc.hour
    ++ "/m=00/p=" ++ p ++ "/" ++ filename

/-- The storage-destination environment of the client factory. -/
structure StorageConfig where
  logStorageConnection : Option String
  logStorageAccountName : Option String
  logStorageMiClientId : Option String
deriving DecidableEq, Repr

/-- The client `blob_service_client` constructs: either from a connection
string or from an account URL with a `DefaultAzureCredential` (optionally
pinned to a managed-identity client id). -/
inductive BlobClient where
  | fromConnectionString (conn : String)
  | fromAccountUrl (url : String) (miClientId : Option String)
deriving DecidableEq, Repr

/-- `blob_service_client()`: connection string wins; otherwise an account
name is required, and its absence raises `RuntimeError` (modelled as
`Except.error`).  The `_blob_svc` cache only short-circuits a repeat call and
is not modelled. -/
def blob_service_client (cfg : StorageConfig) : Except String BlobClient :=
  if optTruthy cfg.logStorageConnection then
    .ok (.fromConnectionString (cfg.logStorageConnection.getD ""))
  else if !optTruthy cfg.logStorageAccountName then
    .error "Blob destination is not configured. Set LOG_STORAGE_CONNECTION (connection string) or LOG_STORAGE_ACCOUNT_NAME (Managed Identity)."
  else
    .ok (.fromAccountUrl
      ("https://" ++ cfg.logStorageAccountName.getD "" ++ ".blob.core.windows.net")
      (if optTruthy cfg.logStorageMiClientId then cfg.logStorageMiClientId else none))

/-- The `line_obj` dict built per record in `main`, with the internal
`_record_time` kept as a separate field (it is removed again before
serialization). -/
structure LineObj where
  timeUtc : String
  fqdn : String
  partitionId : Option String
  offset : Option String
  sequenceNumber : Option String
  message : String
  recordTime : PyDateTime
deriving DecidableEq, Repr

/-- An optional string rendered as a JSON value (`None` serializes to
`null`). -/
def optJsonLit : Option String → String
  | some s => escString s
  | none => "null"

/-- `json.dumps(output_obj, ensure_ascii=False)` of a line object with
`_record_time` removed: the six remaining fields in dict insertion order,
with the default separators `", "` and `": "` (this call site does not pass
`separators`). -/
def lineObjJson (o : LineObj) : String :=
  "\x7b" ++ escString ("time_utc") ++ ": " ++ escString o.timeUtc
    ++ ", " ++ escString ("fqdn") ++ ": " ++ escString o.fqdn
    ++ ", " ++ escString ("partition_id") ++ ": " ++ optJsonLit o.partitionId
    ++ ", " ++ escString ("offset") ++ ": " ++ optJsonLit o.offset
    ++ ", " ++ escString ("sequence_number") ++ ": " ++ optJsonLit o.sequenceNumber
    ++ ", " ++ escString ("message") ++ ": " ++ escString o.message ++ "\x7d"

/-- A grouping key of `records_by_fqdn_and_hour`: (fqdn, hour key). -/
abbrev GroupKey := String × String

/-- Appending one line object under its key, with Python-dict semantics: an
existing key keeps its position and its list is extended; a new key is
appended at the end, preserving first-insertion iteration order. -/
def insertRecord : List (GroupKey × List LineObj) → GroupKey → LineObj →
    List (GroupKey × List LineObj)
  | [], k, o => [(k, [o])]
  | g :: gs, k, o =>
      if g.1 = k then (g.1, g.2 ++ [o]) :: gs
      else g :: insertRecord gs k o

/-- The per-record step of the grouping loop in `main`: message, FQDN,
record time (with the `now_utc` fallback), hour key, and the line object. -/
def buildLine (jparse : String → Option JVal)
    (fromiso : String → Option PyDateTime)
    (partitionId offset seq : Option String) (nowUtc : PyDateTime)
    (r : Record) : GroupKey × LineObj :=
  let msg := pick_message r
  let fqdn := extract_fqdn jparse msg
  let recordTime := (extract_record_time fromiso r).getD nowUtc
  ((fqdn, hourKey recordTime),
   { timeUtc := isoformat recordTime, fqdn := fqdn, partitionId := partitionId,
     offset := offset, sequenceNumber := seq, message := msg,
     recordTime := recordTime })

/-- The grouping loop of `main`: fold the records into
`records_by_fqdn_and_hour`. -/
def groupRecords (jparse : String → Option JVal)
    (fromiso : String → Option PyDateTime) (records : List Record)
    (partitionId offset seq : Option String) (nowUtc : PyDateTime) :
    List (GroupKey × List LineObj) :=
  records.foldl (fun gs r =>
    let ko := buildLine jparse fromiso partitionId offset seq nowUtc r
    insertRecord gs ko.1 ko.2) []

/-- `"\n".join(lines)`. -/
def joinNL : List String → String
  | [] => ""
  | [x] => x
  | x :: y :: t => x ++ "\n" ++ joinNL (y :: t)

/-- One blob upload performed by `main`'s write loop. -/
structure BlobWrite where
  container : String
  blobName : String
  content : String
deriving DecidableEq, Repr

/-- A placeholder for indexing `fqdn_hour_records[0]` on an empty group; the
grouping loop never produces one (the code would raise `IndexError`). -/
def dummyTime : PyDateTime := ⟨0, 0, 0, 0, 0, 0, 0, none⟩

/-- The write performed for one group: container from the FQDN, blob name
from the first record's kept `_record_time` with `start_offset = end_offset =
offset`, content the NDJSON lines joined with a trailing newline. -/
def groupWrite (partitionId offset : Option String)
    (g : GroupKey × List LineObj) : BlobWrite :=
  let firstTime := ((g.2.head?).map (fun o => o.recordTime)).getD dummyTime
  { container := to_container_name g.1.1,
    blobName := blob_name_with_offsets firstTime partitionId offset offset,
    content := joinNL (g.2.map lineObjJson) ++ "\n" }

/-- The groups `main` builds for one invocation, from the parse outcome of
the raw body and the delivery metadata. -/
def mainGroups (jparse : String → Option JVal)
    (fromiso : String → Option PyDateTime) (parsed : Option JVal)
    (raw : String) (partitionId offset seq : Option String)
    (nowUtc : PyDateTime) : List (GroupKey × List LineObj) :=
  groupRecords jparse fromiso (extract_records parsed raw)
    partitionId offset seq nowUtc

/-- The container names passed to `ensure_container`, in call order: one call
per group iteration of the write loop. -/
def ensureContainerCalls (jparse : String → Option JVal)
    (fromiso : String → Option PyDateTime) (parsed : Option JVal)
    (raw : String) (partitionId offset seq : Option String)
    (nowUtc : PyDateTime) : List String :=
  (mainGroups jparse fromiso parsed raw partitionId offset seq nowUtc).map
    (fun g => to_container_name g.1.1)

/-- The blob uploads of one invocation of `main`, in call order. -/
def mainWrites (jparse : String → Option JVal)
    (fromiso : String → Option PyDateTime) (parsed : Option JVal)
    (raw : String) (partitionId offset seq : Option String)
    (nowUtc : PyDateTime) : List BlobWrite :=
  (mainGroups jparse fromiso parsed raw partitionId offset seq nowUtc).map
    (groupWrite partitionId offset)

/-- The container-name constraint `^[a-z0-9-]{3,63}$` as a boolean check:
every character in the allowed alphabet and length between 3 and 63. -/
def isValidContainerName (s : String) : Bool :=
  s.data.all allowedChar && decide (3 ≤ s.length) && decide (s.length ≤ 63)

/-- `json.loads` on the concrete message strings arising in the closed
theorems of this file: the listed literal is valid JSON and parses to the
given object; the function agrees with `json.loads` on every string it is
applied to below (in the other closed theorems the message holds no `\x7b`,
so the parser is never consulted). -/
def jparseFix : String → Option JVal := fun s =>
  if s = "\x7b\"headers\": \x7b\"X-Forwarded-Host\": \"Front.Example.COM:443\"\x7d\x7d"
  then
    some (.jobj [("headers",
      .jobj [("X-Forwarded-Host", .jstr "Front.Example.COM:443")])])
  else none

/-- `datetime.fromisoformat` on the concrete timestamp strings arising in
the closed theorems of this file; it agrees with `fromisoformat` on every
string it is applied to below. -/
def fromisoFix : String → Option PyDateTime := fun s =>
  if s = "2025-01-01T10:00:00+00:00" then some ⟨2025, 1, 1, 10, 0, 0, 0, some 0⟩
  else if s = "2025-01-01T11:00:00+00:00" then
    some ⟨2025, 1, 1, 11, 0, 0, 0, some 0⟩
  else none

/-- Decimal re-interpretation of a digit string (accumulator form), used to
prove the zero-padded `strftime` fields injective. -/
def digitsToNatAux (a : Nat) : List Char → Nat
  | [] => a
  | c :: cs => digitsToNatAux (a * 10 + (c.toNat - 48)) cs

/-- Decimal value of a digit string. -/
def digitsToNat (l : List Char) : Nat := digitsToNatAux 0 l

/-- Invariant of the grouping dictionary: every group is non-empty and every
line object sits under the key derived from its own FQDN and hour. -/
def GroupsInv (gs : List (GroupKey × List LineObj)) : Prop :=
  ∀ g ∈ gs, g.2 ≠ [] ∧ ∀ o ∈ g.2, g.1 = (o.fqdn, hourKey o.recordTime)

/-- A sample processing time, 2025-01-01 10:00:00 UTC. -/
def sampleNow10 : PyDateTime := ⟨2025, 1, 1, 10, 0, 0, 0, some 0⟩

/-- A sample processing time one hour later, 2025-01-01 11:00:00 UTC. -/
def sampleNow11 : PyDateTime := ⟨2025, 1, 1, 11, 0, 0, 0, some 0⟩

/-- The line object `main` builds for the non-JSON payload `"hello"` with
partition `"0"`, offset `"5"`, sequence `"7"` at `sampleNow10`. -/
def sampleLineHello : LineObj :=
  { timeUtc := "2025-01-01T10:00:00+00:00", fqdn := "unknown",
    partitionId := some "0", offset := some "5", sequenceNumber := some "7",
    message := "hello", recordTime := sampleNow10 }

/-- The single blob upload of the `"hello"` invocation at `sampleNow10`. -/
def sampleWriteHello : BlobWrite :=
  { container := "logs-unknown",
    blobName := "y=2025/m=01/d=01/h=10/m=00/p=0/part-o5-o5.ndjson.gz",
    content := lineObjJson sampleLineHello ++ "\n" }

/-- A record with an explicit message and a 10:00Z timestamp. -/
def sampleRec10 : Record :=
  [("time", .jstr "2025-01-01T10:00:00Z"), ("message", .jstr "boot noise")]

/-- A record with an explicit message and an 11:00Z timestamp. -/
def sampleRec11 : Record :=
  [("time", .jstr "2025-01-01T11:00:00Z"), ("message", .jstr "boot noise")]

/-- The parse outcome of a batch holding `sampleRec10` and `sampleRec11`
(`json.loads` of `sampleBatchRaw`). -/
def sampleBatchParsed : Option JVal :=
  some (.jarr [.jobj sampleRec10, .jobj sampleRec11])

/-- The raw text of the two-record batch. -/
def sampleBatchRaw : String :=
  "[\x7b\"time\": \"2025-01-01T10:00:00Z\", \"message\": \"boot noise\"\x7d, "
    ++ "\x7b\"time\": \"2025-01-01T11:00:00Z\", \"message\": \"boot noise\"\x7d]"

/-- The line object built for `sampleRec10`. -/
def sampleLine10 : LineObj :=
  { timeUtc := "2025-01-01T10:00:00+00:00", fqdn := "unknown",
    partitionId := some "0", offset := some "5", sequenceNumber := some "7",
    message := "boot noise", recordTime := ⟨2025, 1, 1, 10, 0, 0, 0, some 0⟩ }

/-- The line object built for `sampleRec11`. -/
def sampleLine11 : LineObj :=
  { timeUtc := "2025-01-01T11:00:00+00:00", fqdn := "unknown",
    partitionId := some "0", offset := some "5", sequenceNumber := some "7",
    message := "boot noise", recordTime := ⟨2025, 1, 1, 11, 0, 0, 0, some 0⟩ }

/-! ## Helper lemmas -/

theorem toDigitsAux_irrel :
    ∀ (f1 n : Nat), n ≤ f1 → ∀ f2, n ≤ f2 → toDigitsAux f1 n = toDigitsAux f2 n := by
  intro f1
  induction f1 with
  | zero =>
      intro n hn f2 _
      have hn0 : n = 0 := by omega
      subst hn0
      cases f2 with
      | zero => rfl
      | succ f =>
          show [digitChar 0] = if 0 < 10 then [digitChar 0] else _
          rw [if_pos (by omega)]
  | succ f ih =>
      intro n hn f2 hn2
      by_cases h : n < 10
      · cases f2 with
        | zero =>
            have hn0 : n = 0 := by omega
            subst hn0
            show (if 0 < 10 then [digitChar 0] else _) = [digitChar 0]
            rw [if_pos (by omega)]
        | succ f2' =>
            show (if n < 10 then [digitChar n] else _)
                = (if n < 10 then [digitChar n] else _)
            rw [if_pos h, if_pos h]
      · cases f2 with
        | zero => omega
        | succ f2' =>
            show (if n < 10 then [digitChar n]
                  else toDigitsAux f (n / 10) ++ [digitChar (n % 10)])
                = (if n < 10 then [digitChar n]
                  else toDigitsAux f2' (n / 10) ++ [digitChar (n % 10)])
            rw [if_neg h, if_neg h]
            have hlt : n / 10 < n := Nat.div_lt_self (by omega) (by omega)
            rw [ih (n / 10) (by omega) f2' (by omega)]

theorem toDigits_eq (n : Nat) :
    toDigits n = if n < 10 then [digitChar n]
      else toDigits (n / 10) ++ [digitChar (n % 10)] := by
  unfold toDigits
  by_cases h : n < 10
  · rw [if_pos h]
    rcases n with _ | m
    · rfl
    · show (if m + 1 < 10 then [digitChar (m + 1)] else _) = [digitChar (m + 1)]
      rw [if_pos h]
  · rw [if_neg h]
    rcases n with _ | m
    · omega
    · show (if m + 1 < 10 then [digitChar (m + 1)]
            else toDigitsAux m ((m + 1) / 10) ++ [digitChar ((m + 1) % 10)])
          = toDigitsAux ((m + 1) / 10) ((m + 1) / 10) ++ [digitChar ((m + 1) % 10)]
      rw [if_neg h]
      have hlt : (m + 1) / 10 < m + 1 := Nat.div_lt_self (by omega) (by omega)
      rw [toDigitsAux_irrel m ((m + 1) / 10) (by omega) ((m + 1) / 10) (le_refl _)]

theorem subNonAllowedAux_mem_allowed {c : Char} :
    ∀ (b : Bool) (l : List Char), c ∈ subNonAllowedAux b l → allowedChar c = true := by
  intro b l
  induction l generalizing b with
  | nil => intro h; simp [subNonAllowedAux] at h
  | cons x xs ih =>
      intro h
      simp only [subNonAllowedAux] at h
      by_cases hx : allowedChar x = true
      · rw [if_pos hx] at h
        rcases List.mem_cons.mp h with h1 | h1
        · subst h1; exact hx
        · exact ih false h1
      · rw [if_neg hx] at h
        cases b with
        | true => exact ih true (by simpa using h)
        | false =>
            rcases List.mem_cons.mp (by simpa using h) with h1 | h1
            · subst h1; decide
            · exact ih true h1

theorem collapseHyphAux_subset {c : Char} :
    ∀ (b : Bool) (l : List Char), c ∈ collapseHyphAux b l → c ∈ l := by
  intro b l
  induction l generalizing b with
  | nil => intro h; simp [collapseHyphAux] at h
  | cons x xs ih =>
      intro h
      simp only [collapseHyphAux] at h
      by_cases hx : x = '-'
      · rw [if_pos hx] at h
        cases b with
        | true => exact List.mem_cons_of_mem x (ih true (by simpa using h))
        | false =>
            rcases List.mem_cons.mp (by simpa using h) with h1 | h1
            · subst h1; subst hx; exact List.mem_cons_self _ _
            · exact List.mem_cons_of_mem x (ih true h1)
      · rw [if_neg hx] at h
        rcases List.mem_cons.mp h with h1 | h1
        · subst h1; exact List.mem_cons_self _ _
        · exact List.mem_cons_of_mem x (ih false h1)

theorem rstripHyph_subset {c : Char} {l : List Char} (h : c ∈ rstripHyph l) :
    c ∈ l := by
  unfold rstripHyph at h
  rw [List.mem_reverse] at h
  have := (List.dropWhile_sublist _).subset h
  exact List.mem_reverse.mp this

theorem stripHyph_subset {c : Char} {l : List Char} (h : c ∈ stripHyph l) :
    c ∈ l := by
  unfold stripHyph at h
  exact (List.dropWhile_sublist _).subset (rstripHyph_subset h)

theorem rstripHyph_length_le (l : List Char) : (rstripHyph l).length ≤ l.length := by
  unfold rstripHyph
  calc (l.reverse.dropWhile (fun c => c = '-')).reverse.length
      = (l.reverse.dropWhile (fun c => c = '-')).length := List.length_reverse _
    _ ≤ l.reverse.length := (List.dropWhile_sublist _).length_le
    _ = l.length := List.length_reverse _

theorem stripHyph_length_le (l : List Char) : (stripHyph l).length ≤ l.length := by
  unfold stripHyph
  exact le_trans (rstripHyph_length_le _)
    (le_trans (List.dropWhile_sublist _).length_le (le_refl _))

theorem containerNameCore_valid (l : List Char) :
    isValidContainerName (containerNameCore l) = true := by
  unfold containerNameCore
  set n2 := collapseHyph (stripHyph (subNonAllowed l)) with hn2
  have hall2 : ∀ c ∈ n2, allowedChar c = true := by
    intro c hc
    exact subNonAllowedAux_mem_allowed false l
      ((List.dropWhile_sublist _).subset
        (rstripHyph_subset (collapseHyphAux_subset false _ hc)))
  set n3 := if n2.length > 63 then rstripHyph (n2.take 63) else n2 with hn3
  have hall3 : ∀ c ∈ n3, allowedChar c = true := by
    intro c hc
    rw [hn3] at hc
    split at hc
    · exact hall2 c ((List.take_sublist _ _).subset (rstripHyph_subset hc))
    · exact hall2 c hc
  have hlen3 : n3.length ≤ 63 := by
    rw [hn3]
    split
    · exact le_trans (rstripHyph_length_le _)
        (by simp [List.length_take])
    · omega
  set n4 := stripHyph n3 with hn4
  have hall4 : ∀ c ∈ n4, allowedChar c = true := fun c hc =>
    hall3 c (stripHyph_subset hc)
  have hlen4 : n4.length ≤ 63 := le_trans (stripHyph_length_le _) hlen3
  by_cases hsmall : n4.length < 3
  · rw [if_pos hsmall]; decide
  · rw [if_neg hsmall]
    unfold isValidContainerName
    have hlens : (String.mk n4).length = n4.length := rfl
    rw [Bool.and_eq_true, Bool.and_eq_true]
    refine ⟨⟨?_, ?_⟩, ?_⟩
    · rw [List.all_eq_true]; intro c hc; exact hall4 c hc
    · rw [decide_eq_true_eq, hlens]; omega
    · rw [decide_eq_true_eq, hlens]; omega

/-! ## C2 -/

/-- C2 counterexample: `to_container_name` is not idempotent — it
unconditionally re-prepends the container prefix, so applying it to its own
output of `"example.com"` yields `"logs-logs-example-com"`, not
`"logs-example-com"`. -/
theorem to_container_name_not_idempotent :
    to_container_name (to_container_name ("example.com"))
      ≠ to_container_name ("example.com") := by decide

/-- C2 (amended): for every input string, the output of `to_container_name`
matches `^[a-z0-9-]{3,63}$`; idempotence, however, does not hold. -/
theorem to_container_name_matches_regex (x : String) :
    isValidContainerName (to_container_name x) = true := by
  unfold to_container_name
  exact containerNameCore_valid _

theorem digitChar_toNat (n : Nat) : (digitChar n).toNat = 48 + n % 10 := by
  unfold digitChar
  have h : n % 10 < 10 := Nat.mod_lt _ (by omega)
  set k := n % 10 with hk
  interval_cases k <;> decide

theorem digitsToNatAux_append (a : Nat) (l1 l2 : List Char) :
    digitsToNatAux a (l1 ++ l2) = digitsToNatAux (digitsToNatAux a l1) l2 := by
  induction l1 generalizing a with
  | nil => rfl
  | cons c cs ih => exact ih (a * 10 + (c.toNat - 48))

theorem digitsToNatAux_toDigits (n : Nat) : ∀ a : Nat,
    digitsToNatAux a (toDigits n) = a * 10 ^ (toDigits n).length + n := by
  induction n using Nat.strong_induction_on with
  | _ n ih =>
      intro a
      by_cases h : n < 10
      · rw [toDigits_eq, if_pos h]
        show a * 10 + ((digitChar n).toNat - 48)
            = a * 10 ^ ([digitChar n] : List Char).length + n
        rw [digitChar_toNat]
        simp only [List.length_singleton, pow_one]
        omega
      · rw [toDigits_eq, if_neg h]
        rw [digitsToNatAux_append]
        have hrec := ih (n / 10) (Nat.div_lt_self (by omega) (by omega))
        rw [hrec a]
        set L1 := (toDigits (n / 10)).length
        have lhs_eq : digitsToNatAux (a * 10 ^ L1 + n / 10) [digitChar (n % 10)]
            = (a * 10 ^ L1 + n / 10) * 10 + n % 10 := by
          show (a * 10 ^ L1 + n / 10) * 10 + ((digitChar (n % 10)).toNat - 48) = _
          rw [digitChar_toNat]
          omega
        rw [lhs_eq, List.length_append]
        have h2 : n / 10 * 10 + n % 10 = n := by omega
        calc (a * 10 ^ L1 + n / 10) * 10 + n % 10
            = a * 10 ^ L1 * 10 + (n / 10 * 10 + n % 10) := by ring
          _ = a * 10 ^ L1 * 10 + n := by rw [h2]
          _ = a * 10 ^ (L1 + [digitChar (n % 10)].length) + n := by
              simp [pow_succ]; ring

theorem digitsToNat_toDigits (n : Nat) : digitsToNat (toDigits n) = n := by
  unfold digitsToNat
  rw [digitsToNatAux_toDigits n 0]
  omega

theorem digitsToNatAux_replicate_zero (k : Nat) : ∀ a : Nat,
    digitsToNatAux a (List.replicate k '0') = a * 10 ^ k := by
  induction k with
  | zero => intro a; show a = a * 10 ^ 0; simp
  | succ m ih =>
      intro a
      rw [List.replicate_succ]
      have h48 : ('0' : Char).toNat = 48 := rfl
      have hacc : a * 10 + (('0' : Char).toNat - 48) = a * 10 := by
        rw [h48]
        omega
      have hstep : digitsToNatAux a ('0' :: List.replicate m '0')
          = digitsToNatAux (a * 10) (List.replicate m '0') := by
        show digitsToNatAux (a * 10 + (('0' : Char).toNat - 48))
            (List.replicate m '0') = _
        rw [hacc]
      rw [hstep, ih (a * 10)]
      ring

theorem digitsToNat_padNat (w n : Nat) : digitsToNat ((padNat w n).data) = n := by
  unfold digitsToNat padNat
  show digitsToNatAux 0 (List.replicate _ '0' ++ toDigits n) = n
  rw [digitsToNatAux_append, digitsToNatAux_replicate_zero]
  rw [digitsToNatAux_toDigits n]
  simp

theorem padNat_inj {w1 w2 n m : Nat} (h : padNat w1 n = padNat w2 m) : n = m := by
  have h2 : digitsToNat ((padNat w1 n).data) = digitsToNat ((padNat w2 m).data) := by
    rw [h]
  rw [digitsToNat_padNat, digitsToNat_padNat] at h2
  exact h2

theorem toDigits_toNat_bounds (n : Nat) :
    ∀ c ∈ toDigits n, 48 ≤ c.toNat ∧ c.toNat ≤ 57 := by
  induction n using Nat.strong_induction_on with
  | _ n ih =>
      intro c hc
      by_cases h : n < 10
      · rw [toDigits_eq, if_pos h] at hc
        rcases List.mem_singleton.mp hc with rfl
        rw [digitChar_toNat]
        omega
      · rw [toDigits_eq, if_neg h] at hc
        rcases List.mem_append.mp hc with h1 | h1
        · exact ih (n / 10) (Nat.div_lt_self (by omega) (by omega)) c h1
        · rcases List.mem_singleton.mp h1 with rfl
          rw [digitChar_toNat]
          omega

theorem padNat_no_hyphen {w n : Nat} : ∀ c ∈ (padNat w n).data, c ≠ '-' := by
  intro c hc
  unfold padNat at hc
  rcases List.mem_append.mp hc with h1 | h1
  · rcases List.eq_of_mem_replicate h1 with rfl
    decide
  · have := toDigits_toNat_bounds n c h1
    intro hcon
    subst hcon
    simp at this

theorem append_hyphen_inj :
    ∀ (a1 a2 r1 r2 : List Char), (∀ c ∈ a1, c ≠ '-') → (∀ c ∈ a2, c ≠ '-') →
      a1 ++ '-' :: r1 = a2 ++ '-' :: r2 → a1 = a2 ∧ r1 = r2 := by
  intro a1
  induction a1 with
  | nil =>
      intro a2 r1 r2 _ h2 heq
      cases a2 with
      | nil => simpa using heq
      | cons y ys =>
          exfalso
          have : '-' = y := by simpa using congrArg (fun l => l.headD ' ') heq
          exact h2 y (List.mem_cons_self _ _) this.symm
  | cons x xs ih =>
      intro a2 r1 r2 h1 h2 heq
      cases a2 with
      | nil =>
          exfalso
          have : x = '-' := by simpa using congrArg (fun l => l.headD ' ') heq
          exact h1 x (List.mem_cons_self _ _) this
      | cons y ys =>
          have hx : x = y := by simpa using congrArg (fun l => l.headD ' ') heq
          have htl : xs ++ '-' :: r1 = ys ++ '-' :: r2 := by
            simpa using congrArg List.tail heq
          have := ih ys r1 r2 (fun c hc => h1 c (List.mem_cons_of_mem _ hc))
            (fun c hc => h2 c (List.mem_cons_of_mem _ hc)) htl
          exact ⟨by rw [hx, this.1], this.2⟩

theorem hourKey_inj {t1 t2 : PyDateTime} (h : hourKey t1 = hourKey t2) :
    t1.year = t2.year ∧ t1.month = t2.month ∧ t1.day = t2.day
      ∧ t1.hour = t2.hour := by
  unfold hourKey at h
  have hd : (padNat 4 t1.year).data ++ '-' :: ((padNat 2 t1.month).data ++ '-' ::
        ((padNat 2 t1.day).data ++ '-' :: (padNat 2 t1.hour).data))
      = (padNat 4 t2.year).data ++ '-' :: ((padNat 2 t2.month).data ++ '-' ::
        ((padNat 2 t2.day).data ++ '-' :: (padNat 2 t2.hour).data)) := by
    have := congrArg String.data h
    simpa [String.data_append] using this
  have s1 := append_hyphen_inj _ _ _ _ padNat_no_hyphen padNat_no_hyphen hd
  have s2 := append_hyphen_inj _ _ _ _ padNat_no_hyphen padNat_no_hyphen s1.2
  have s3 := append_hyphen_inj _ _ _ _ padNat_no_hyphen padNat_no_hyphen s2.2
  refine ⟨?_, ?_, ?_, ?_⟩
  · exact padNat_inj (congrArg String.mk s1.1)
  · exact padNat_inj (congrArg String.mk s2.1)
  · exact padNat_inj (congrArg String.mk s3.1)
  · exact padNat_inj (congrArg String.mk s3.2)

theorem insertRecord_inv :
    ∀ (gs : List (GroupKey × List LineObj)) (k : GroupKey) (o : LineObj),
      GroupsInv gs → k = (o.fqdn, hourKey o.recordTime) →
      GroupsInv (insertRecord gs k o) := by
  intro gs
  induction gs with
  | nil =>
      intro k o _ hk g hg
      rcases List.mem_singleton.mp hg with rfl
      refine ⟨by simp, ?_⟩
      intro o2 h2
      rcases List.mem_singleton.mp h2 with rfl
      exact hk
  | cons g0 gs ih =>
      intro k o hgs hk g hg
      simp only [insertRecord] at hg
      by_cases heq : g0.1 = k
      · rw [if_pos heq] at hg
        rcases List.mem_cons.mp hg with rfl | hmem
        · refine ⟨by simp, ?_⟩
          intro o2 h2
          rcases List.mem_append.mp h2 with h3 | h3
          · exact (hgs g0 (List.mem_cons_self _ _)).2 o2 h3
          · rcases List.mem_singleton.mp h3 with rfl
            show g0.1 = _
            rw [heq, hk]
        · exact hgs g (List.mem_cons_of_mem _ hmem)
      · rw [if_neg heq] at hg
        rcases List.mem_cons.mp hg with rfl | hmem
        · exact hgs g (List.mem_cons_self _ _)
        · exact ih k o (fun g2 hg2 => hgs g2 (List.mem_cons_of_mem _ hg2)) hk g hmem

theorem groupRecords_fold_inv (jp : String → Option JVal)
    (fi : String → Option PyDateTime) (p off s : Option String)
    (now : PyDateTime) :
    ∀ (rs : List Record) (gs : List (GroupKey × List LineObj)), GroupsInv gs →
      GroupsInv (rs.foldl (fun gs r =>
        let ko := buildLine jp fi p off s now r
        insertRecord gs ko.1 ko.2) gs) := by
  intro rs
  induction rs with
  | nil => intro gs h; exact h
  | cons r rest ih =>
      intro gs h
      exact ih _ (insertRecord_inv gs _ _ h rfl)

theorem mainGroups_inv (jp : String → Option JVal)
    (fi : String → Option PyDateTime) (parsed : Option JVal) (raw : String)
    (p off s : Option String) (now : PyDateTime) :
    GroupsInv (mainGroups jp fi parsed raw p off s now) := by
  exact groupRecords_fold_inv jp fi p off s now _ [] (by intro g hg; cases hg)

/-! ## C4 -/

/-- C4: event-time routing — two records processed in the same invocation
whose routed timestamps (extracted, or the `now_utc` fallback) lie in
different hours are never placed in the same group: any two line objects in
one group of `records_by_fqdn_and_hour` agree on the year, month, day and
hour fields of their record time (the calendar fields `strftime` renders),
hence no durable object mixes two distinct hours. -/
theorem no_group_mixes_hours (jp : String → Option JVal)
    (fi : String → Option PyDateTime) (parsed : Option JVal) (raw : String)
    (p off s : Option String) (now : PyDateTime) (k : GroupKey)
    (objs : List LineObj) (o1 o2 : LineObj)
    (hg : (k, objs) ∈ mainGroups jp fi parsed raw p off s now)
    (h1 : o1 ∈ objs) (h2 : o2 ∈ objs) :
    o1.recordTime.year = o2.recordTime.year
      ∧ o1.recordTime.month = o2.recordTime.month
      ∧ o1.recordTime.day = o2.recordTime.day
      ∧ o1.recordTime.hour = o2.recordTime.hour := by
  have hinv := mainGroups_inv jp fi parsed raw p off s now (k, objs) hg
  have e1 := hinv.2 o1 h1
  have e2 := hinv.2 o2 h2
  have hkeys : hourKey o1.recordTime = hourKey o2.recordTime :=
    congrArg Prod.snd (e1.symm.trans e2)
  exact hourKey_inj hkeys

/-- C4 witness: a concrete invocation on the non-JSON payload `"hello"`
produces one group holding one line object, to which the theorem applies. -/
theorem no_group_mixes_hours_witness :
    ((("unknown", "2025-01-01-10"), [sampleLineHello])
        ∈ mainGroups jparseFix fromisoFix none ("hello") (some "0") (some "5")
          (some "7") sampleNow10)
    ∧ sampleLineHello.recordTime.year = sampleLineHello.recordTime.year := by
  refine ⟨by decide, ?_⟩
  exact (no_group_mixes_hours jparseFix fromisoFix none ("hello") (some "0")
    (some "5") (some "7") sampleNow10 ("unknown", "2025-01-01-10")
    [sampleLineHello] sampleLineHello sampleLineHello (by decide) (by decide)
    (by decide)).1

/-! ## C9 -/

/-- C9: every group built by the grouping loop is non-empty — a key is only
inserted into `records_by_fqdn_and_hour` together with an appended record —
so reading `fqdn_hour_records[0]` for blob naming cannot fail. -/
theorem mainGroups_nonempty (jp : String → Option JVal)
    (fi : String → Option PyDateTime) (parsed : Option JVal) (raw : String)
    (p off s : Option String) (now : PyDateTime) (k : GroupKey)
    (objs : List LineObj)
    (hg : (k, objs) ∈ mainGroups jp fi parsed raw p off s now) :
    objs ≠ [] :=
  (mainGroups_inv jp fi parsed raw p off s now (k, objs) hg).1

/-- C9 witness: the theorem applied to the concrete group of the `"hello"`
invocation. -/
theorem mainGroups_nonempty_witness :
    ((("unknown", "2025-01-01-10"), [sampleLineHello])
        ∈ mainGroups jparseFix fromisoFix none ("hello") (some "0") (some "5")
          (some "7") sampleNow10)
    ∧ [sampleLineHello] ≠ ([] : List LineObj) := by
  refine ⟨by decide, ?_⟩
  exact mainGroups_nonempty jparseFix fromisoFix none ("hello") (some "0")
    (some "5") (some "7") sampleNow10 ("unknown", "2025-01-01-10")
    [sampleLineHello] (by decide)

theorem blob_name_equal_markers (t : PyDateTime) (p off : Option String) :
    ∃ d x, blob_name_with_offsets t p off off
        = d ++ ("part-o" ++ x ++ "-o" ++ x ++ ".ndjson.gz")
      ∧ (optTruthy off = true → x = off.getD "") := by
  unfold blob_name_with_offsets
  by_cases h : optTruthy off = true
  · rw [h]
    exact ⟨_, off.getD "", rfl, fun _ => rfl⟩
  · rw [Bool.not_eq_true] at h
    rw [h]
    exact ⟨_, timestampMs t, rfl, fun hcon => absurd hcon (by simp [h])⟩

/-! ## C10 -/

/-- C10: in every invocation the single batch offset serves as both start and
end offset of every group, so every generated blob name ends in
`part-o<x>-o<x>.ndjson.gz` with identical markers — the shared offset when it
is truthy, otherwise one shared millisecond-timestamp value. -/
theorem mainWrites_offset_markers (jp : String → Option JVal)
    (fi : String → Option PyDateTime) (parsed : Option JVal) (raw : String)
    (p off s : Option String) (now : PyDateTime) :
    ∀ w ∈ mainWrites jp fi parsed raw p off s now,
      ∃ d x, w.blobName = d ++ ("part-o" ++ x ++ "-o" ++ x ++ ".ndjson.gz")
        ∧ (optTruthy off = true → x = off.getD "") := by
  intro w hw
  rcases List.mem_map.mp hw with ⟨g, _, rfl⟩
  exact blob_name_equal_markers _ p off

/-- C10 witness: the blob written by the `"hello"` invocation carries the
offset `5` as both markers. -/
theorem mainWrites_offset_markers_witness :
    (sampleWriteHello ∈ mainWrites jparseFix fromisoFix none ("hello")
      (some "0") (some "5") (some "7") sampleNow10)
    ∧ ∃ d x, sampleWriteHello.blobName
        = d ++ ("part-o" ++ x ++ "-o" ++ x ++ ".ndjson.gz")
      ∧ (optTruthy (some "5") = true → x = (some "5").getD "") := by
  refine ⟨by decide, ?_⟩
  exact mainWrites_offset_markers jparseFix fromisoFix none ("hello")
    (some "0") (some "5") (some "7") sampleNow10 sampleWriteHello (by decide)

/-! ## C8 -/

/-- C8: with neither a connection string nor an account name configured
(unset or empty, following Python truthiness), `blob_service_client` raises
`RuntimeError`; with either configured it constructs a client and raises no
such error. -/
theorem blob_service_client_config (cfg : StorageConfig) :
    (optTruthy cfg.logStorageConnection = false →
      optTruthy cfg.logStorageAccountName = false →
      (blob_service_client cfg).isOk = false)
    ∧ ((optTruthy cfg.logStorageConnection = true ∨
        optTruthy cfg.logStorageAccountName = true) →
      (blob_service_client cfg).isOk = true) := by
  constructor
  · intro h1 h2
    simp [blob_service_client, h1, h2, Except.isOk, Except.toBool]
  · intro h
    rcases h with h | h
    · simp [blob_service_client, h, Except.isOk, Except.toBool]
    · by_cases hc : optTruthy cfg.logStorageConnection = true
      · simp [blob_service_client, hc, Except.isOk, Except.toBool]
      · rw [Bool.not_eq_true] at hc
        simp [blob_service_client, hc, h, Except.isOk, Except.toBool]

/-- C8 witness: an empty configuration errors; a connection-string-only
configuration succeeds. -/
theorem blob_service_client_config_witness :
    (blob_service_client ⟨none, none, none⟩).isOk = false
    ∧ (blob_service_client ⟨some "UseDevelopmentStorage=true", none, none⟩).isOk
        = true := by
  constructor
  · exact (blob_service_client_config ⟨none, none, none⟩).1 rfl rfl
  · exact (blob_service_client_config
      ⟨some "UseDevelopmentStorage=true", none, none⟩).2 (Or.inl (by decide))

/-! ## C3 -/

/-- C3 counterexample: `json.loads("[]")` yields the empty JSON list, and
`extract_records` returns the empty record sequence for it — not a non-empty
one as claimed. -/
theorem extract_records_empty_on_empty_list :
    extract_records (some (.jarr [])) ("[]") = ([] : List Record) := rfl

/-- C3 (amended): `extract_records` is total (never raises); non-JSON text
and scalar JSON values degrade to the single record `{"_raw": text}`, and a
mapping without a `records` array is returned as the sole record; but a list
input (or a mapping whose `records` array holds no mappings) may produce an
empty sequence, e.g. `"[]"`. -/
theorem extract_records_shapes (raw : String) :
    extract_records none raw = [[("_raw", JVal.jstr raw)]]
    ∧ extract_records (some .jnull) raw = [[("_raw", JVal.jstr raw)]]
    ∧ (∀ b, extract_records (some (.jbool b)) raw = [[("_raw", JVal.jstr raw)]])
    ∧ (∀ n : Int, extract_records (some (.jnum n)) raw
        = [[("_raw", JVal.jstr raw)]])
    ∧ (∀ s, extract_records (some (.jstr s)) raw = [[("_raw", JVal.jstr raw)]])
    ∧ (∀ fields : Record, (∀ rs, rget fields "records" ≠ some (.jarr rs)) →
        extract_records (some (.jobj fields)) raw = [fields]) := by
  refine ⟨rfl, rfl, fun b => rfl, fun n => rfl, fun s => rfl, ?_⟩
  intro fields h
  show (match rget fields "records" with
        | some (.jarr rs) => recordsOfList rs
        | _ => [fields]) = [fields]
  cases hr : rget fields "records" with
  | none => rfl
  | some v =>
      cases v with
      | jarr rs => exact absurd hr (h rs)
      | jnull => rfl
      | jbool b => rfl
      | jnum n => rfl
      | jstr s => rfl
      | jobj fs => rfl

/-- C3 witness: the amended theorem applied at the bare mapping
`{"a": 1}`. -/
theorem extract_records_shapes_witness :
    (∀ rs, rget [("a", JVal.jnum 1)] "records" ≠ some (.jarr rs))
    ∧ extract_records (some (.jobj [("a", JVal.jnum 1)])) ("x")
        = [[("a", JVal.jnum 1)]] := by
  have hnone : ∀ rs, rget [("a", JVal.jnum 1)] "records" ≠ some (.jarr rs) := by
    intro rs h
    simp [rget] at h
  exact ⟨hnone, (extract_records_shapes ("x")).2.2.2.2.2 [("a", JVal.jnum 1)] hnone⟩

theorem buildLine_now_irrel (jp : String → Option JVal)
    (fi : String → Option PyDateTime) (p off s : Option String)
    (n1 n2 : PyDateTime) (r : Record)
    (h : (extract_record_time fi r).isSome = true) :
    buildLine jp fi p off s n1 r = buildLine jp fi p off s n2 r := by
  unfold buildLine
  cases hx : extract_record_time fi r with
  | none => rw [hx] at h; simp at h
  | some dt => rfl

theorem groupRecords_fold_now_irrel (jp : String → Option JVal)
    (fi : String → Option PyDateTime) (p off s : Option String)
    (n1 n2 : PyDateTime) :
    ∀ rs : List Record,
      (∀ r ∈ rs, (extract_record_time fi r).isSome = true) →
      ∀ gs, rs.foldl (fun gs r =>
          let ko := buildLine jp fi p off s n1 r
          insertRecord gs ko.1 ko.2) gs
        = rs.foldl (fun gs r =>
          let ko := buildLine jp fi p off s n2 r
          insertRecord gs ko.1 ko.2) gs := by
  intro rs
  induction rs with
  | nil => intro _ gs; rfl
  | cons r rest ih =>
      intro h gs
      have hstep := buildLine_now_irrel jp fi p off s n1 n2 r
        (h r (List.mem_cons_self _ _))
      show List.foldl _ (insertRecord gs (buildLine jp fi p off s n1 r).1
          (buildLine jp fi p off s n1 r).2) rest = _
      rw [hstep]
      exact ih (fun r2 h2 => h r2 (List.mem_cons_of_mem _ h2)) _

/-! ## C1 -/

/-- C1 counterexample: a record without any timestamp field falls back to the
processing time, so re-running the pipeline on the identical raw batch with
identical partition id and offsets one hour later writes to a different
object key — the key is not determined by the batch and its delivery offsets
alone.  (`json.loads` of the raw text yields the given mapping; the message
holds no brace, so the embedded-JSON parser is never consulted.) -/
theorem batch_retry_key_not_stable :
    ((mainWrites jparseFix fromisoFix
        (some (.jobj [("message", JVal.jstr "boot noise")]))
        ("\x7b\"message\": \"boot noise\"\x7d") (some "0") (some "5")
        (some "7") sampleNow10).map (fun w => w.blobName)
      = ["y=2025/m=01/d=01/h=10/m=00/p=0/part-o5-o5.ndjson.gz"])
    ∧ ((mainWrites jparseFix fromisoFix
        (some (.jobj [("message", JVal.jstr "boot noise")]))
        ("\x7b\"message\": \"boot noise\"\x7d") (some "0") (some "5")
        (some "7") sampleNow11).map (fun w => w.blobName)
      = ["y=2025/m=01/d=01/h=11/m=00/p=0/part-o5-o5.ndjson.gz"])
    ∧ ("y=2025/m=01/d=01/h=10/m=00/p=0/part-o5-o5.ndjson.gz" : String)
        ≠ "y=2025/m=01/d=01/h=11/m=00/p=0/part-o5-o5.ndjson.gz" := by
  exact ⟨by decide, by decide, by decide⟩

/-- C1 (amended): when every record of the batch carries a timestamp that
`extract_record_time` parses, the full write set (keys and contents) is
independent of the processing time, so re-running the pipeline on an
identical raw batch with identical delivery metadata produces identical
content at identical keys; and with truthy offsets the blob key is a pure
function of the hour bucket, the partition id and the two offsets. -/
theorem batch_writes_retry_stable (jp : String → Option JVal)
    (fi : String → Option PyDateTime) (parsed : Option JVal) (raw : String)
    (p off s : Option String) (n1 n2 : PyDateTime)
    (h : ∀ r ∈ extract_records parsed raw,
      (extract_record_time fi r).isSome = true) :
    mainWrites jp fi parsed raw p off s n1 = mainWrites jp fi parsed raw p off s n2
    ∧ (∀ t1 t2 : PyDateTime, ∀ pid so eo : Option String,
        optTruthy so = true → optTruthy eo = true →
        t1.year = t2.year → t1.month = t2.month → t1.day = t2.day →
        t1.hour = t2.hour →
        blob_name_with_offsets t1 pid so eo = blob_name_with_offsets t2 pid so eo) := by
  constructor
  · unfold mainWrites mainGroups groupRecords
    rw [groupRecords_fold_now_irrel jp fi p off s n1 n2 _ h []]
  · intro t1 t2 pid so eo hso heo hy hm hd hh
    unfold blob_name_with_offsets
    rw [hso, heo, hy, hm, hd, hh]
    simp

/-- C1 witness: a batch whose single record carries a parseable `time` is
written identically at 10:00 and at 11:00 processing time. -/
theorem batch_writes_retry_stable_witness :
    (∀ r ∈ extract_records (some (.jobj sampleRec10))
        ("\x7b\"time\": \"2025-01-01T10:00:00Z\", \"message\": \"boot noise\"\x7d"),
      (extract_record_time fromisoFix r).isSome = true)
    ∧ mainWrites jparseFix fromisoFix (some (.jobj sampleRec10))
        ("\x7b\"time\": \"2025-01-01T10:00:00Z\", \"message\": \"boot noise\"\x7d")
        (some "0") (some "5") (some "7") sampleNow10
      = mainWrites jparseFix fromisoFix (some (.jobj sampleRec10))
        ("\x7b\"time\": \"2025-01-01T10:00:00Z\", \"message\": \"boot noise\"\x7d")
        (some "0") (some "5") (some "7") sampleNow11 := by
  refine ⟨by decide, ?_⟩
  exact (batch_writes_retry_stable jparseFix fromisoFix (some (.jobj sampleRec10))
    ("\x7b\"time\": \"2025-01-01T10:00:00Z\", \"message\": \"boot noise\"\x7d")
    (some "0") (some "5") (some "7") sampleNow10 sampleNow11 (by decide)).1

/-! ## C5 -/

/-- C5 counterexample: a batch whose two records resolve to the same tenant
`"unknown"` but to the hours 10 and 11 causes two `ensure_container` calls —
both for the single tenant's container — because the check runs once per
group, uncached, not once per distinct tenant. -/
theorem ensure_container_twice_same_tenant :
    ensureContainerCalls jparseFix fromisoFix sampleBatchParsed sampleBatchRaw
        (some "0") (some "5") (some "7") sampleNow10
      = ["logs-unknown", "logs-unknown"]
    ∧ ((mainGroups jparseFix fromisoFix sampleBatchParsed sampleBatchRaw
        (some "0") (some "5") (some "7") sampleNow10).map (fun g => g.1.1))
      = ["unknown", "unknown"] := by
  exact ⟨by decide, by decide⟩

theorem two_mem_le_length {α : Type} {a b : α} {l : List α}
    (ha : a ∈ l) (hb : b ∈ l) (hne : a ≠ b) : 2 ≤ l.length := by
  induction l with
  | nil => cases ha
  | cons x xs ih =>
      rcases List.mem_cons.mp ha with rfl | ha2
      · rcases List.mem_cons.mp hb with h | hb2
        · exact absurd h.symm hne
        · have : 1 ≤ xs.length := List.length_pos.mpr (List.ne_nil_of_mem hb2)
          simp only [List.length_cons]
          omega
      · have : 1 ≤ xs.length := List.length_pos.mpr (List.ne_nil_of_mem ha2)
        simp only [List.length_cons]
        omega

/-- C5 (amended): the container-existence check is performed once per Group —
the call list is exactly one `ensure_container` per (tenant, hour) group, in
group order — so a tenant whose records span two hours causes two checks
(idempotent, but not cached per tenant). -/
theorem ensure_container_once_per_group (jp : String → Option JVal)
    (fi : String → Option PyDateTime) (parsed : Option JVal) (raw : String)
    (p off s : Option String) (now : PyDateTime) :
    ensureContainerCalls jp fi parsed raw p off s now
      = (mainGroups jp fi parsed raw p off s now).map
          (fun g => to_container_name g.1.1)
    ∧ (∀ k1 l1 k2 l2,
        (k1, l1) ∈ mainGroups jp fi parsed raw p off s now →
        (k2, l2) ∈ mainGroups jp fi parsed raw p off s now → k1 ≠ k2 →
        2 ≤ (ensureContainerCalls jp fi parsed raw p off s now).length) := by
  refine ⟨rfl, ?_⟩
  intro k1 l1 k2 l2 h1 h2 hne
  have hlen : (ensureContainerCalls jp fi parsed raw p off s now).length
      = (mainGroups jp fi parsed raw p off s now).length :=
    List.length_map _ _
  rw [hlen]
  have hne2 : ((k1 : GroupKey), l1) ≠ (k2, l2) := by
    intro hcon
    exact hne (congrArg Prod.fst hcon)
  exact two_mem_le_length h1 h2 hne2

/-- C5 witness: the amended theorem applied to the two-hour batch, whose two
distinct groups force at least two `ensure_container` calls. -/
theorem ensure_container_once_per_group_witness :
    ((("unknown", "2025-01-01-10"), [sampleLine10])
        ∈ mainGroups jparseFix fromisoFix sampleBatchParsed sampleBatchRaw
          (some "0") (some "5") (some "7") sampleNow10)
    ∧ ((("unknown", "2025-01-01-11"), [sampleLine11])
        ∈ mainGroups jparseFix fromisoFix sampleBatchParsed sampleBatchRaw
          (some "0") (some "5") (some "7") sampleNow10)
    ∧ 2 ≤ (ensureContainerCalls jparseFix fromisoFix sampleBatchParsed
        sampleBatchRaw (some "0") (some "5") (some "7") sampleNow10).length := by
  refine ⟨by decide, by decide, ?_⟩
  exact (ensure_container_once_per_group jparseFix fromisoFix sampleBatchParsed
    sampleBatchRaw (some "0") (some "5") (some "7") sampleNow10).2
    ("unknown", "2025-01-01-10") [sampleLine10]
    ("unknown", "2025-01-01-11") [sampleLine11]
    (by decide) (by decide) (by decide)

/-! ## C6 -/

/-- C6: tenant resolution — (1) when the message embeds a parseable JSON
object whose `headers` mapping carries a non-blank `X-Forwarded-Host`, its
normalized (lowercased, port-stripped) value is returned and any `Host:`
text token is ignored (the header wins); (2) when neither the embedded
header nor the `HOST_REGEX` search yields a host, the literal `"unknown"`
is returned; (3) the message `Host: example.com:8080, extra` resolves to
`example.com` whatever the JSON parser does (it holds no brace), and (4)
that tenant's container under the default prefix is `logs-example-com`. -/
theorem extract_fqdn_resolution :
    (∀ (jparse : String → Option JVal) (msg : String) (i : Nat)
        (fields hdrs : List (String × JVal)) (v : String),
      findBrace msg = some i →
      jparse (dropChars msg i) = some (.jobj fields) →
      rget fields "headers" = some (.jobj hdrs) →
      rget hdrs "X-Forwarded-Host" = some (.jstr v) →
      strTruthy v = true →
      extract_fqdn jparse msg = normalizeHost v)
    ∧ (∀ (jparse : String → Option JVal) (msg : String),
        (∀ i, findBrace msg = some i →
          headerHost (jparse (dropChars msg i)) = none) →
        hostRegexSearch msg = none →
        extract_fqdn jparse msg = "unknown")
    ∧ (∀ jparse : String → Option JVal,
        extract_fqdn jparse ("Host: example.com:8080, extra") = "example.com")
    ∧ to_container_name ("example.com") = "logs-example-com" := by
  refine ⟨?_, ?_, ?_, by decide⟩
  · intro jparse msg i fields hdrs v h1 h2 h3 h4 h5
    have htry : xfhTry hdrs "X-Forwarded-Host" = some (normalizeHost v) := by
      unfold xfhTry
      rw [h4]
      show (if strTruthy v = true then some (normalizeHost v) else none)
          = some (normalizeHost v)
      rw [h5]
      exact if_pos rfl
    have hh : headerHost (some (.jobj fields)) = some (normalizeHost v) := by
      show (match rget fields "headers" with
            | some (.jobj hdrs) => xfhLookup hdrs
            | _ => none) = some (normalizeHost v)
      rw [h3]
      show xfhLookup hdrs = some (normalizeHost v)
      unfold xfhLookup
      simp only [List.findSome?]
      rw [htry]
    unfold extract_fqdn
    rw [h1]
    show (match headerHost (jparse (dropChars msg i)) with
          | some h => h
          | none => match hostRegexSearch msg with
            | none => "unknown"
            | some g => normalizeHost g) = normalizeHost v
    rw [h2, hh]
  · intro jparse msg hhdr hreg
    unfold extract_fqdn
    cases hb : findBrace msg with
    | none => rw [hreg]
    | some i =>
        show (match headerHost (jparse (dropChars msg i)) with
              | some h => h
              | none => match hostRegexSearch msg with
                | none => "unknown"
                | some g => normalizeHost g) = "unknown"
        rw [hhdr i hb, hreg]
  · intro jparse
    rfl

/-- C6 witness: a message carrying both a `Host:` token and an embedded
`X-Forwarded-Host` header resolves to the header value, lowercased and
port-stripped. -/
theorem extract_fqdn_resolution_witness :
    findBrace ("Host: fallback.internal \x7b\"headers\": \x7b\"X-Forwarded-Host\": \"Front.Example.COM:443\"\x7d\x7d")
        = some 24
    ∧ jparseFix (dropChars ("Host: fallback.internal \x7b\"headers\": \x7b\"X-Forwarded-Host\": \"Front.Example.COM:443\"\x7d\x7d") 24)
        = some (.jobj [("headers",
            .jobj [("X-Forwarded-Host", .jstr "Front.Example.COM:443")])])
    ∧ extract_fqdn jparseFix
        ("Host: fallback.internal \x7b\"headers\": \x7b\"X-Forwarded-Host\": \"Front.Example.COM:443\"\x7d\x7d")
        = normalizeHost ("Front.Example.COM:443")
    ∧ normalizeHost ("Front.Example.COM:443") = "front.example.com"
    ∧ hostRegexSearch
        ("Host: fallback.internal \x7b\"headers\": \x7b\"X-Forwarded-Host\": \"Front.Example.COM:443\"\x7d\x7d")
        = some "fallback.internal" := by
  refine ⟨by decide, rfl, ?_, by decide, by decide⟩
  exact (extract_fqdn_resolution).1 jparseFix
    ("Host: fallback.internal \x7b\"headers\": \x7b\"X-Forwarded-Host\": \"Front.Example.COM:443\"\x7d\x7d")
    24 [("headers", .jobj [("X-Forwarded-Host", .jstr "Front.Example.COM:443")])]
    [("X-Forwarded-Host", .jstr "Front.Example.COM:443")]
    ("Front.Example.COM:443") (by decide) rfl rfl rfl (by decide)

/-! ## C7 -/

/-- C7: timestamp extraction — (1) a parseable non-blank string under the
first key `time` decides the result; (2) when `time` yields nothing, `Time`
is tried next (the scan follows the fixed order `time, Time, timestamp,
Timestamp`); (3) when every key's attempt fails the result is `None`, not an
error; (4) a value with a trailing `Z` is parsed after replacing the `Z`
with `+00:00`; (5) a parsed value without timezone information is assumed
UTC; (6) the caller substitutes the current processing time when the result
is `None`. -/
theorem extract_record_time_props :
    (∀ (fi : String → Option PyDateTime) (r : Record) (v : String)
        (dt : PyDateTime),
      rget r "time" = some (.jstr v) → strTruthy v = true →
      parseRecordTimeValue fi v = some dt →
      extract_record_time fi r = some dt)
    ∧ (∀ (fi : String → Option PyDateTime) (r : Record) (dt : PyDateTime),
        candidateTime fi r "time" = none →
        candidateTime fi r "Time" = some dt →
        extract_record_time fi r = some dt)
    ∧ (∀ (fi : String → Option PyDateTime) (r : Record),
        (∀ k ∈ (["time", "Time", "timestamp", "Timestamp"] : List String),
          candidateTime fi r k = none) →
        extract_record_time fi r = none)
    ∧ (∀ (fi : String → Option PyDateTime) (v : String),
        v.data.getLast? = some 'Z' →
        parseRecordTimeValue fi v = fi (replaceZ v))
    ∧ (∀ (fi : String → Option PyDateTime) (v : String) (dt : PyDateTime),
        v.data.getLast? ≠ some 'Z' → fi v = some dt → dt.tzOffsetMin = none →
        parseRecordTimeValue fi v = some (withUTC dt))
    ∧ (∀ (jp : String → Option JVal) (fi : String → Option PyDateTime)
        (p off s : Option String) (now : PyDateTime) (r : Record),
        extract_record_time fi r = none →
        (buildLine jp fi p off s now r).2.recordTime = now) := by
  refine ⟨?_, ?_, ?_, ?_, ?_, ?_⟩
  · intro fi r v dt h1 h2 h3
    have hc : candidateTime fi r "time" = some dt := by
      unfold candidateTime
      rw [h1]
      show (if strTruthy v = true then parseRecordTimeValue fi v else none)
          = some dt
      rw [h2, if_pos rfl, h3]
    unfold extract_record_time
    simp only [List.findSome?, hc]
  · intro fi r dt h1 h2
    unfold extract_record_time
    simp only [List.findSome?, h1, h2]
  · intro fi r h
    have h1 := h "time" (by simp)
    have h2 := h "Time" (by simp)
    have h3 := h "timestamp" (by simp)
    have h4 := h "Timestamp" (by simp)
    unfold extract_record_time
    simp only [List.findSome?, h1, h2, h3, h4]
  · intro fi v h
    unfold parseRecordTimeValue
    rw [if_pos h]
  · intro fi v dt h1 h2 h3
    unfold parseRecordTimeValue
    rw [if_neg h1, h2]
    simp [h3]
  · intro jp fi p off s now r h
    unfold buildLine
    rw [h]
    rfl

/-- C7 witness: the first-key case applied to a record whose `time` field is
`2025-01-01T10:00:00Z`, which parses to 10:00 UTC. -/
theorem extract_record_time_props_witness :
    rget sampleRec10 "time" = some (.jstr "2025-01-01T10:00:00Z")
    ∧ strTruthy ("2025-01-01T10:00:00Z") = true
    ∧ parseRecordTimeValue fromisoFix ("2025-01-01T10:00:00Z")
        = some ⟨2025, 1, 1, 10, 0, 0, 0, some 0⟩
    ∧ extract_record_time fromisoFix sampleRec10
        = some ⟨2025, 1, 1, 10, 0, 0, 0, some 0⟩ := by
  refine ⟨rfl, by decide, by decide, ?_⟩
  exact (extract_record_time_props).1 fromisoFix sampleRec10
    ("2025-01-01T10:00:00Z") ⟨2025, 1, 1, 10, 0, 0, 0, some 0⟩
    rfl (by decide) (by decide)
